import Mathlib

/-!
Verification of the ProCoach-AI interview backend (src/backend/main.py):
a shallow embedding of the in-memory interview session state machine —
`start_interview`, `analyze_audio`, `end_interview`,
`save_interview_to_user_history` — and proofs of the specified properties.

External collaborators (speech-to-text, the chat-completion model, the
summary model) are modelled as explicit outcome parameters: the embedding
of each endpoint takes the collaborator's result (or its failure) as input
and performs exactly the state updates the Python code performs, in the
same order.
-/

namespace ProCoach

/-- Conversation roles as used in the `history` entries of a session. -/
inductive Role
  | user
  | assistant
deriving DecidableEq, Repr

/-- One message of a session's `history`: `{"role": ..., "content": ...}`. -/
structure Msg where
  role : Role
  content : String
deriving DecidableEq, Repr

/-- The in-memory session dict stored in `interview_sessions[session_id]`
(main.py lines 609–626).  Fields not referenced by any verified property
(tts flag, resume/job-description flags, timing) are omitted. -/
structure SessionState where
  topic : String
  difficulty : String
  systemPrompt : String
  history : List Msg
  scores : List Nat
  questionCount : Nat
  currentDifficultyAdjustment : Int
  durationMinutes : Nat
  userId : Option Nat
deriving DecidableEq, Repr

/-- A row of the relational `Interview` table, restricted to the columns the
verified properties read or write (main.py lines 632–646, 838–873,
1260–1303). -/
structure Interview where
  sessionId : String
  userId : Option Nat
  status : String
  questionCount : Nat
  scores : List Nat
  averageScore : Option ℚ
  transcript : List Msg
  summary : Option String
deriving DecidableEq, Repr

/-- The global in-memory table `interview_sessions`, keyed by session id. -/
def SessionTable : Type := String → Option SessionState

/-- Point update of the session table (dict assignment / `del`). -/
def SessionTable.set (tbl : SessionTable) (id : String) (v : Option SessionState) :
    SessionTable :=
  fun i => if i = id then v else tbl i

/-- The empty session table. -/
def emptyTable : SessionTable := fun _ => none

/-- The HTTP-level error outcomes the endpoints raise. -/
inductive ApiError
  | notFound
  | serverError
  | permissionDenied
deriving DecidableEq, Repr

/-! ### The score-annotation parser

`analyze_audio` extracts a score with `re.search(r'\[SCORE:\s*(\d+)/10\]', ai)`
and strips it from the displayed text with
`re.sub(r'\s*\[SCORE:\s*\d+/10\]', '', ai).strip()` (main.py lines 717–724).
In this pattern every greedy repetition (`\s*`, `\d+`) is followed by a
character its class cannot match (`[`, a digit boundary, `/`), so maximal-munch
scanning without backtracking is exactly the regex semantics, and `re.search`
returns the leftmost match. -/

/-- Python's `\s` class, over its ASCII members (space, TAB, LF, VT, FF, CR). -/
def isWS (c : Char) : Bool :=
  c.toNat = 32 || c.toNat = 9 || c.toNat = 10 || c.toNat = 11 ||
    c.toNat = 12 || c.toNat = 13

/-- Python's `\d` class restricted to ASCII digits `0`–`9`. -/
def isDigitCh (c : Char) : Bool :=
  48 ≤ c.toNat && c.toNat ≤ 57

/-- Value of a big-endian ASCII digit string (what `int(...)` computes on the
captured group). -/
def digitsVal (ds : List Char) : Nat :=
  ds.foldl (fun a c => 10 * a + (c.toNat - 48)) 0

/-- Consume an exact literal from the head of the input. -/
def dropLit : List Char → List Char → Option (List Char)
  | [], cs => some cs
  | _ :: _, [] => none
  | l :: ls, c :: cs => if c = l then dropLit ls cs else none

/-- Match `\[SCORE:\s*(\d+)/10\]` anchored at the head of the input; on
success, the captured integer and the remaining input. -/
def matchScoreAt (cs : List Char) : Option (Nat × List Char) :=
  match dropLit "[SCORE:".data cs with
  | none => none
  | some rest =>
    let afterWs := rest.dropWhile isWS
    let ds := afterWs.takeWhile isDigitCh
    if ds = [] then none
    else
      match dropLit "/10]".data (afterWs.dropWhile isDigitCh) with
      | none => none
      | some tail => some (digitsVal ds, tail)

/-- `re.search(r'\[SCORE:\s*(\d+)/10\]', ·)`: the leftmost match's captured
integer, if any. -/
def searchScore : List Char → Option Nat
  | [] => none
  | c :: cs =>
    match matchScoreAt (c :: cs) with
    | some p => some p.1
    | none => searchScore cs

/-- Match `\s*\[SCORE:\s*\d+/10\]` anchored at the head: the remaining input
after the match.  (`\s` and `[` are disjoint, so maximal munch is faithful.) -/
def matchWsScoreAt (cs : List Char) : Option (List Char) :=
  match matchScoreAt (cs.dropWhile isWS) with
  | none => none
  | some p => some p.2

/-- Fuelled scanner for `re.sub(r'\s*\[SCORE:\s*\d+/10\]', '', ·)`: delete
every non-overlapping leftmost match.  The fuel is the input length, which
bounds the number of scan positions. -/
def subScoreAux : Nat → List Char → List Char
  | 0, cs => cs
  | _ + 1, [] => []
  | fuel + 1, c :: cs =>
    match matchWsScoreAt (c :: cs) with
    | some tail => subScoreAux fuel tail
    | none => c :: subScoreAux fuel cs

/-- `re.sub(r'\s*\[SCORE:\s*\d+/10\]', '', ·)`. -/
def subScore (cs : List Char) : List Char :=
  subScoreAux cs.length cs

/-- Python's `str.strip()`: remove leading and trailing whitespace. -/
def pyStrip (cs : List Char) : List Char :=
  ((cs.dropWhile isWS).reverse.dropWhile isWS).reverse

/-! ### Running statistics and the adaptive-difficulty policy -/

/-- `sum(scores) / len(scores) if scores else None` (main.py line 727),
as an exact rational. -/
def avgOpt (scores : List Nat) : Option ℚ :=
  if scores = [] then none
  else some ((scores.sum : ℚ) / scores.length)

/-- `round(x, 1)`: rounding to one decimal place.  Python's float `round`
breaks exact ties to even; no verified property depends on tie-breaking, and
ties are modelled by `round` on rationals. -/
def round1 (q : ℚ) : ℚ :=
  (round (10 * q) : ℚ) / 10

/-- The adaptive-difficulty update of main.py lines 730–734.  The outer
guard is Python truthiness (`if avg_score:`): it skips the policy both when
no score was ever recorded (`None`) and when the running average is `0.0`. -/
def adjustStep (avg : Option ℚ) (adj : Int) : Int :=
  match avg with
  | none => adj
  | some a =>
    if a = 0 then adj
    else if 8 ≤ a ∧ adj < 2 then adj + 1
    else if a ≤ 4 ∧ -2 < adj then adj - 1
    else adj

/-- The `difficulty_trend` label of the turn response (main.py line 752). -/
def trendLabel (adj : Int) : String :=
  if 0 < adj then "harder" else if adj < 0 then "easier" else "stable"

/-- The trend classification of `end_interview` (main.py line 830):
`"improving" if len >= 2 and scores[-1] > scores[0] else ("declining" if
len >= 2 and scores[-1] < scores[0] else "stable")`. -/
def trendOf (scores : List Nat) : String :=
  if 2 ≤ scores.length ∧ scores.headD 0 < scores.getLastD 0 then "improving"
  else if 2 ≤ scores.length ∧ scores.getLastD 0 < scores.headD 0 then "declining"
  else "stable"

/-! ### `POST /interview/start` (main.py lines 526–660) -/

/-- The request configuration fields the verified properties depend on. -/
structure StartRequest where
  topic : String
  difficulty : String
  durationMinutes : Nat
deriving DecidableEq, Repr

/-- The in-memory session inserted by `start_interview` (lines 609–629):
empty history and scores, then the opening message is appended and
`question_count` set to 1.  The system prompt and the templated opening
message are pure string composition from the request; they are taken as
inputs here. -/
def initialSession (req : StartRequest) (currentUser : Option Nat)
    (systemPrompt opening : String) : SessionState where
  topic := req.topic
  difficulty := req.difficulty
  systemPrompt := systemPrompt
  history := [⟨Role.assistant, opening⟩]
  scores := []
  questionCount := 1
  currentDifficultyAdjustment := 0
  durationMinutes := req.durationMinutes
  userId := currentUser

/-- `start_interview`: inserts the in-memory session and then — with no
condition on `current_user` — creates the durable `Interview` row with
`user_id = current_user.id if current_user else None` and status
`"active"` (lines 631–648). -/
def startInterview (tbl : SessionTable) (dbI : List Interview)
    (sessionId : String) (req : StartRequest) (currentUser : Option Nat)
    (systemPrompt opening : String) : SessionTable × List Interview :=
  let st := initialSession req currentUser systemPrompt opening
  let row : Interview :=
    { sessionId := sessionId
      userId := currentUser
      status := "active"
      questionCount := 1
      scores := []
      averageScore := none
      transcript := [⟨Role.assistant, opening⟩]
      summary := none }
  (tbl.set sessionId (some st), dbI ++ [row])

/-! ### `POST /interview/{id}/analyze` (main.py lines 662–757) -/

/-- The outcome of the two fallible external calls of one turn:
transcription failed (nothing of the turn ran), the chat completion failed
(the user utterance had already been appended to history when the exception
was raised), or both succeeded. -/
inductive TurnOutcome
  | sttFail
  | llmFail (userText : String)
  | llmOk (userText aiResponse : String)
deriving DecidableEq, Repr

/-- The JSON body returned by a successful `analyze_audio` (lines 744–753). -/
structure TurnResponse where
  userText : String
  aiResponse : String
  questionNumber : Nat
  historyLength : Nat
  score : Option Nat
  averageScore : Option ℚ
  totalScores : Nat
  difficultyTrend : String
deriving DecidableEq, Repr

/-- The state update and response of one fully successful turn, in source
order (lines 696–753): append the user message; parse and record the score;
compute the running average; apply the adaptive-difficulty policy; append
the unstripped model reply; increment the turn counter. -/
def turnSuccess (st : SessionState) (userText aiResponse : String) :
    SessionState × TurnResponse :=
  let hist1 := st.history ++ [⟨Role.user, userText⟩]
  let score := searchScore aiResponse.data
  let scores2 :=
    match score with
    | some n => st.scores ++ [n]
    | none => st.scores
  let display :=
    match score with
    | some _ => String.mk (pyStrip (subScore aiResponse.data))
    | none => aiResponse
  let avg := avgOpt scores2
  let adj2 := adjustStep avg st.currentDifficultyAdjustment
  let hist2 := hist1 ++ [⟨Role.assistant, aiResponse⟩]
  let st2 : SessionState :=
    { st with
        history := hist2
        scores := scores2
        questionCount := st.questionCount + 1
        currentDifficultyAdjustment := adj2 }
  (st2,
    { userText := userText
      aiResponse := display
      questionNumber := st2.questionCount
      historyLength := hist2.length
      score := score
      averageScore :=
        match avg with
        | none => none
        | some a => if a = 0 then none else some (round1 a)
      totalScores := scores2.length
      difficultyTrend := trendLabel adj2 })

/-- `analyze_audio`: 404 on an unknown session; a raised exception from a
collaborator surfaces as a 500, leaving behind exactly the mutations made
before the raise (the user-message append precedes the model call, so a
failed model call leaves it in history). -/
def analyzeAudio (tbl : SessionTable) (sessionId : String)
    (outcome : TurnOutcome) : SessionTable × Except ApiError TurnResponse :=
  match tbl sessionId with
  | none => (tbl, .error .notFound)
  | some st =>
    match outcome with
    | .sttFail => (tbl, .error .serverError)
    | .llmFail u =>
        (tbl.set sessionId
          (some { st with history := st.history ++ [⟨Role.user, u⟩] }),
         .error .serverError)
    | .llmOk u r =>
        let p := turnSuccess st u r
        (tbl.set sessionId (some p.1), .ok p.2)

/-- The session-state effect of one `analyze_audio` call (no table, for
reasoning about turn sequences). -/
def stepOutcome (st : SessionState) (o : TurnOutcome) : SessionState :=
  match o with
  | .sttFail => st
  | .llmFail u => { st with history := st.history ++ [⟨Role.user, u⟩] }
  | .llmOk u r => (turnSuccess st u r).1

/-- Run a sequence of turns against one session. -/
def runTurns (st : SessionState) (outs : List TurnOutcome) : SessionState :=
  outs.foldl stepOutcome st

/-- Run a sequence of fully successful turns, each given as
(user utterance, model reply). -/
def runSuccessfulTurns (st : SessionState) (turns : List (String × String)) :
    SessionState :=
  runTurns st (turns.map fun p => TurnOutcome.llmOk p.1 p.2)

/-! ### `POST /interview/{id}/end` (main.py lines 759–877) -/

/-- The `scores` object of the end-of-interview payload (lines 825–831). -/
structure ScoreStats where
  individual : List Nat
  average : Option ℚ
  min : Option Nat
  max : Option Nat
  trend : String
deriving DecidableEq, Repr

/-- The end-of-interview payload, restricted to the fields the verified
properties read (lines 819–835). -/
structure EndResult where
  sessionId : String
  totalQuestions : Nat
  scores : ScoreStats
  summary : String
  history : List Msg
  durationSeconds : Nat
deriving DecidableEq, Repr

/-- The fallback summary substituted when the summary model call raises
(line 812). -/
def fallbackSummary : String := "Unable to generate summary. Please try again."

/-- `db.query(Interview).filter(Interview.session_id == sid).first()`. -/
def findFirst (dbI : List Interview) (sid : String) : Option Interview :=
  dbI.find? fun r => r.sessionId = sid

/-- In-place mutation of the first row matching the session id, as done by
assigning to the ORM object returned by `.first()` and committing. -/
def updateFirst (dbI : List Interview) (sid : String)
    (f : Interview → Interview) : List Interview :=
  match dbI with
  | [] => []
  | r :: rest =>
    if r.sessionId = sid then f r :: rest else r :: updateFirst rest sid f

/-- `end_interview`: 404 on an unknown id; otherwise computes the score
statistics over the session's scores, substitutes `fallbackSummary` when the
summary model call fails (`summaryOutcome = none`), updates the existing
`Interview` row or inserts an ownerless completed one, and deletes the
in-memory entry.  `durationSeconds` stands for `int(time.time() - start_time)`. -/
def endInterview (tbl : SessionTable) (dbI : List Interview)
    (sessionId : String) (summaryOutcome : Option String)
    (durationSeconds : Nat) :
    SessionTable × List Interview × Except ApiError EndResult :=
  match tbl sessionId with
  | none => (tbl, dbI, .error .notFound)
  | some st =>
    let scores := st.scores
    let avgScore : Option ℚ :=
      if scores = [] then none
      else some (round1 ((scores.sum : ℚ) / scores.length))
    let summary := summaryOutcome.getD fallbackSummary
    let result : EndResult :=
      { sessionId := sessionId
        totalQuestions := st.questionCount
        scores :=
          { individual := scores
            average := avgScore
            min := scores.min?
            max := scores.max?
            trend := trendOf scores }
        summary := summary
        history := st.history
        durationSeconds := durationSeconds }
    let dbI2 :=
      match findFirst dbI sessionId with
      | some _ =>
          updateFirst dbI sessionId fun r =>
            { r with
                scores := scores
                averageScore := avgScore
                transcript := st.history
                summary := some summary
                questionCount := st.questionCount
                status := "completed" }
      | none =>
          dbI ++
            [{ sessionId := sessionId
               userId := none
               status := "completed"
               questionCount := st.questionCount
               scores := scores
               averageScore := avgScore
               transcript := st.history
               summary := some summary }]
    (tbl.set sessionId none, dbI2, .ok result)

/-! ### `POST /user/interviews/save` (main.py lines 1251–1321) -/

/-- The success body of `save_interview_to_user_history`. -/
structure SaveResult where
  success : Bool
  message : String
deriving DecidableEq, Repr

/-- `save_interview_to_user_history` for an authenticated user `uid`:
if a durable row for the session exists — owned by `uid`: no-op success
("Interview already saved"); ownerless: set ownership to `uid`; owned by
someone else: 403.  With no durable row, fall back to the in-memory session
(404 if absent) and insert a completed row owned by `uid`.  The fallback
reads `session.get("conversation", [])`, a key these sessions never set, so
its transcript is empty; the secondary `InterviewQuestion` rows it inserts
are not modelled. -/
def saveInterviewToUserHistory (dbI : List Interview) (tbl : SessionTable)
    (sessionId : String) (uid : Nat) :
    List Interview × Except ApiError SaveResult :=
  match findFirst dbI sessionId with
  | some ex =>
    if ex.userId = some uid then
      (dbI, .ok ⟨true, "Interview already saved"⟩)
    else if ex.userId = none then
      (updateFirst dbI sessionId fun r => { r with userId := some uid },
       .ok ⟨true, "Interview linked to your account"⟩)
    else
      (dbI, .error .permissionDenied)
  | none =>
    match tbl sessionId with
    | none => (dbI, .error .notFound)
    | some st =>
      (dbI ++
        [{ sessionId := sessionId
           userId := some uid
           status := "completed"
           questionCount := st.questionCount
           scores := st.scores
           averageScore :=
             if st.scores = [] then none
             else some (round1 ((st.scores.sum : ℚ) / st.scores.length))
           transcript := []
           summary := none }],
       .ok ⟨true, "Interview saved successfully"⟩)

/-! ### Decimal rendering and the parser round-trip -/

/-- The score statistics as §4.1 of the specification words them, for
comparison with what `endInterview` computes: average = the arithmetic mean
rounded to 1 decimal (absent for no scores), min/max = the extrema (absent
for no scores), trend by comparing first and last score. -/
def specFinalize (scores : List Nat) : ScoreStats where
  individual := scores
  average :=
    if scores = [] then none
    else some (round1 ((scores.sum : ℚ) / scores.length))
  min := scores.min?
  max := scores.max?
  trend := trendOf scores

/-- The ASCII character of a decimal digit. -/
def digitChar10 (d : Nat) : Char := Char.ofNat (48 + d)

/-- `str(n)`: the decimal rendering of a natural number. -/
def natChars (n : Nat) : List Char :=
  if n = 0 then ['0'] else ((Nat.digits 10 n).map digitChar10).reverse

/-- The model reply `"[SCORE: n/10]"` carrying an arbitrary score `n`. -/
def scoreMarker (n : Nat) : String :=
  String.mk ("[SCORE:".data ++ (' ' :: (natChars n ++ "/10]".data)))

theorem toNat_digitChar10 {d : Nat} (hd : d < 10) :
    (digitChar10 d).toNat = 48 + d := by
  interval_cases d <;> rfl

theorem isDigitCh_digitChar10 {d : Nat} (hd : d < 10) :
    isDigitCh (digitChar10 d) = true := by
  simp only [isDigitCh, toNat_digitChar10 hd, Bool.and_eq_true, decide_eq_true_eq]
  omega

theorem natChars_digits {n : Nat} : ∀ c ∈ natChars n, isDigitCh c = true := by
  intro c hc
  unfold natChars at hc
  by_cases h : n = 0
  · simp [h] at hc
    subst hc; decide
  · simp only [h, if_false, List.mem_reverse, List.mem_map] at hc
    obtain ⟨d, hd, rfl⟩ := hc
    exact isDigitCh_digitChar10 (Nat.digits_lt_base (by norm_num) hd)

theorem natChars_ne_nil (n : Nat) : natChars n ≠ [] := by
  unfold natChars
  by_cases h : n = 0
  · simp [h]
  · simp only [h, if_false, ne_eq, List.reverse_eq_nil_iff, List.map_eq_nil_iff]
    exact Nat.digits_ne_nil_iff_ne_zero.mpr h

theorem not_isWS_of_isDigitCh {c : Char} (h : isDigitCh c = true) :
    isWS c = false := by
  simp only [isDigitCh, Bool.and_eq_true, decide_eq_true_eq] at h
  simp only [isWS, Bool.or_eq_false_iff, decide_eq_false_iff_not]
  omega

theorem foldl_digits (ds : List Nat) (a : Nat) (h : ∀ d ∈ ds, d < 10) :
    ((ds.map digitChar10).reverse).foldl (fun acc c => 10 * acc + (c.toNat - 48)) a
      = a * 10 ^ ds.length + Nat.ofDigits 10 ds := by
  induction ds generalizing a with
  | nil => simp [Nat.ofDigits]
  | cons d t ih =>
    have hd : d < 10 := h d (List.mem_cons_self d t)
    have ht : ∀ x ∈ t, x < 10 := fun x hx => h x (List.mem_cons_of_mem d hx)
    simp only [List.map_cons, List.reverse_cons, List.foldl_append, List.foldl_cons,
      List.foldl_nil, ih a ht, Nat.ofDigits_cons, List.length_cons,
      toNat_digitChar10 hd]
    have : 48 + d - 48 = d := by omega
    rw [this, pow_succ]
    ring

theorem digitsVal_natChars (n : Nat) : digitsVal (natChars n) = n := by
  by_cases h : n = 0
  · subst h; decide
  · unfold digitsVal natChars
    simp only [h, if_false]
    rw [foldl_digits _ 0 (fun d hd => Nat.digits_lt_base (by norm_num) hd)]
    simp [Nat.ofDigits_digits]

theorem takeWhile_all_append {p : Char → Bool} {xs : List Char} {y : Char}
    {t : List Char} (hx : ∀ c ∈ xs, p c = true) (hy : p y = false) :
    (xs ++ y :: t).takeWhile p = xs := by
  induction xs with
  | nil => simp [List.takeWhile_cons, hy]
  | cons c cs ih =>
    have hc : p c = true := hx c (List.mem_cons_self c cs)
    simp [List.takeWhile_cons, hc, ih fun x hx2 => hx x (List.mem_cons_of_mem c hx2)]

theorem dropWhile_all_append {p : Char → Bool} {xs : List Char} {y : Char}
    {t : List Char} (hx : ∀ c ∈ xs, p c = true) (hy : p y = false) :
    (xs ++ y :: t).dropWhile p = y :: t := by
  induction xs with
  | nil => simp [List.dropWhile_cons, hy]
  | cons c cs ih =>
    have hc : p c = true := hx c (List.mem_cons_self c cs)
    simp [List.dropWhile_cons, hc, ih fun x hx2 => hx x (List.mem_cons_of_mem c hx2)]

theorem dropLit_append (ls rest : List Char) : dropLit ls (ls ++ rest) = some rest := by
  induction ls with
  | nil => rfl
  | cons l t ih => simp [dropLit, ih]

theorem matchScoreAt_marker (n : Nat) :
    matchScoreAt ("[SCORE:".data ++ (' ' :: (natChars n ++ "/10]".data)))
      = some (n, []) := by
  obtain ⟨c0, t0, hnc⟩ : ∃ c0 t0, natChars n = c0 :: t0 := by
    cases h : natChars n with
    | nil => exact absurd h (natChars_ne_nil n)
    | cons c0 t0 => exact ⟨c0, t0, rfl⟩
  have hdigits : ∀ c ∈ c0 :: t0, isDigitCh c = true := hnc ▸ natChars_digits
  have hc0 : isDigitCh c0 = true := hdigits c0 (List.mem_cons_self c0 t0)
  unfold matchScoreAt
  rw [dropLit_append]
  have hws : (' ' :: (natChars n ++ "/10]".data)).dropWhile isWS
      = (c0 :: t0) ++ "/10]".data := by
    rw [hnc, List.dropWhile_cons]
    have : isWS ' ' = true := by decide
    rw [if_pos this, List.cons_append, List.dropWhile_cons,
      if_neg (by rw [not_isWS_of_isDigitCh hc0]; exact Bool.false_ne_true)]
  simp only [hws]
  have hslash : isDigitCh '/' = false := by decide
  have htake : ((c0 :: t0) ++ "/10]".data).takeWhile isDigitCh = c0 :: t0 := by
    rw [show "/10]".data = '/' :: "10]".data from rfl]
    exact takeWhile_all_append hdigits hslash
  have hdrop : ((c0 :: t0) ++ "/10]".data).dropWhile isDigitCh = "/10]".data := by
    rw [show "/10]".data = '/' :: "10]".data from rfl]
    exact dropWhile_all_append hdigits hslash
  rw [htake, hdrop, if_neg (by simp)]
  rw [show "/10]".data = "/10]".data ++ ([] : List Char) by simp, dropLit_append]
  rw [← hnc, digitsVal_natChars]

theorem searchScore_cons (c : Char) (cs : List Char) :
    searchScore (c :: cs)
      = match matchScoreAt (c :: cs) with
        | some p => some p.1
        | none => searchScore cs := rfl

theorem searchScore_marker (n : Nat) :
    searchScore (scoreMarker n).data = some n := by
  show searchScore ("[SCORE:".data ++ (' ' :: (natChars n ++ "/10]".data))) = some n
  have hm := matchScoreAt_marker n
  rw [show "[SCORE:".data = '[' :: "SCORE:".data from rfl, List.cons_append] at hm ⊢
  rw [searchScore_cons, hm]

/-! ### State-machine helper lemmas -/

theorem turnSuccess_scores (st : SessionState) (u r : String) :
    (turnSuccess st u r).1.scores = st.scores ++ (searchScore r.data).toList := by
  unfold turnSuccess
  cases searchScore r.data <;> simp

theorem turnSuccess_history (st : SessionState) (u r : String) :
    (turnSuccess st u r).1.history
      = st.history ++ [⟨Role.user, u⟩, ⟨Role.assistant, r⟩] := by
  unfold turnSuccess
  simp

theorem turnSuccess_adj (st : SessionState) (u r : String) :
    (turnSuccess st u r).1.currentDifficultyAdjustment
      = adjustStep (avgOpt (st.scores ++ (searchScore r.data).toList))
          st.currentDifficultyAdjustment := by
  unfold turnSuccess
  cases searchScore r.data <;> simp

theorem adjustStep_bounds (avg : Option ℚ) (adj : Int)
    (h1 : -2 ≤ adj) (h2 : adj ≤ 2) :
    -2 ≤ adjustStep avg adj ∧ adjustStep avg adj ≤ 2 := by
  cases avg with
  | none => exact ⟨h1, h2⟩
  | some a =>
    simp only [adjustStep]
    split_ifs with hz hinc hdec
    · exact ⟨h1, h2⟩
    · obtain ⟨-, hlt⟩ := hinc
      omega
    · obtain ⟨-, hgt⟩ := hdec
      omega
    · exact ⟨h1, h2⟩

theorem stepOutcome_adj_bounds (st : SessionState) (o : TurnOutcome)
    (h1 : -2 ≤ st.currentDifficultyAdjustment)
    (h2 : st.currentDifficultyAdjustment ≤ 2) :
    -2 ≤ (stepOutcome st o).currentDifficultyAdjustment ∧
      (stepOutcome st o).currentDifficultyAdjustment ≤ 2 := by
  cases o with
  | sttFail => exact ⟨h1, h2⟩
  | llmFail u => exact ⟨h1, h2⟩
  | llmOk u r =>
    rw [stepOutcome, turnSuccess_adj]
    exact adjustStep_bounds _ _ h1 h2

theorem runTurns_adj_bounds (outs : List TurnOutcome) :
    ∀ st : SessionState, -2 ≤ st.currentDifficultyAdjustment →
      st.currentDifficultyAdjustment ≤ 2 →
      -2 ≤ (runTurns st outs).currentDifficultyAdjustment ∧
        (runTurns st outs).currentDifficultyAdjustment ≤ 2 := by
  induction outs with
  | nil => exact fun st h1 h2 => ⟨h1, h2⟩
  | cons o t ih =>
    intro st h1 h2
    have hstep := stepOutcome_adj_bounds st o h1 h2
    exact ih (stepOutcome st o) hstep.1 hstep.2

theorem runSuccessfulTurns_cons (st : SessionState) (p : String × String)
    (t : List (String × String)) :
    runSuccessfulTurns st (p :: t)
      = runSuccessfulTurns (turnSuccess st p.1 p.2).1 t := rfl

theorem runSuccessfulTurns_scores (turns : List (String × String)) :
    ∀ st : SessionState,
      (runSuccessfulTurns st turns).scores
        = st.scores ++ turns.filterMap fun p => searchScore p.2.data := by
  induction turns with
  | nil => intro st; simp [runSuccessfulTurns, runTurns]
  | cons p t ih =>
    intro st
    rw [runSuccessfulTurns_cons, ih, turnSuccess_scores, List.filterMap_cons]
    cases searchScore p.2.data <;> simp

theorem runSuccessfulTurns_history_length (turns : List (String × String)) :
    ∀ st : SessionState,
      (runSuccessfulTurns st turns).history.length
        = st.history.length + 2 * turns.length := by
  induction turns with
  | nil => intro st; simp [runSuccessfulTurns, runTurns]
  | cons p t ih =>
    intro st
    rw [runSuccessfulTurns_cons, ih, turnSuccess_history]
    simp
    omega

theorem runTurns_cons (st : SessionState) (o : TurnOutcome)
    (outs : List TurnOutcome) :
    runTurns st (o :: outs) = runTurns (stepOutcome st o) outs := rfl

theorem adjustStep_none (adj : Int) : adjustStep none adj = adj := rfl

theorem adjustStep_some (a : ℚ) (adj : Int) :
    adjustStep (some a) adj
      = if a = 0 then adj
        else if 8 ≤ a ∧ adj < 2 then adj + 1
        else if a ≤ 4 ∧ -2 < adj then adj - 1
        else adj := rfl

theorem avgOpt_replicate (k n : Nat) (hk : k ≠ 0) :
    avgOpt (List.replicate k n) = some (n : ℚ) := by
  unfold avgOpt
  rw [if_neg (by simp [hk]), List.sum_replicate, List.length_replicate]
  have hk' : (k : ℚ) ≠ 0 := Nat.cast_ne_zero.mpr hk
  congr 1
  push_cast [smul_eq_mul]
  field_simp

/-- Invariant run of turns whose reply always parses to score 10: the
adjustment climbs by one per turn and saturates at +2. -/
theorem runTurns_const_ten (u r : String)
    (hscore : searchScore r.data = some 10) :
    ∀ (k j : Nat) (st : SessionState), st.scores = List.replicate j 10 →
      st.currentDifficultyAdjustment = min (j : Int) 2 →
      (runTurns st (List.replicate k (.llmOk u r))).currentDifficultyAdjustment
        = min ((j + k : Nat) : Int) 2 := by
  intro k
  induction k with
  | zero =>
    intro j st hs ha
    simpa [runTurns] using ha
  | succ k ih =>
    intro j st hs ha
    rw [List.replicate_succ, runTurns_cons]
    have hs2 : (stepOutcome st (.llmOk u r)).scores = List.replicate (j + 1) 10 := by
      rw [stepOutcome, turnSuccess_scores, hscore, hs, List.replicate_succ']
      rfl
    have ha2 : (stepOutcome st (.llmOk u r)).currentDifficultyAdjustment
        = min ((j + 1 : Nat) : Int) 2 := by
      rw [stepOutcome, turnSuccess_adj, hscore, hs]
      rw [show List.replicate j 10 ++ (some 10).toList = List.replicate (j + 1) 10 by
        rw [List.replicate_succ']; rfl]
      rw [avgOpt_replicate (j + 1) 10 (Nat.succ_ne_zero j), ha, adjustStep_some]
      rw [if_neg (by norm_num)]
      by_cases hj : min (j : Int) 2 < 2
      · rw [if_pos ⟨by norm_num, hj⟩]
        omega
      · rw [if_neg fun hand => hj hand.2,
          if_neg fun hand => absurd hand.1 (by norm_num)]
        omega
    have := ih (j + 1) _ hs2 ha2
    rw [show j + (k + 1) = (j + 1) + k from by omega]
    exact this

/-- Invariant run of turns whose reply always parses to score 1: the
adjustment drops by one per turn and saturates at −2. -/
theorem runTurns_const_one (u r : String)
    (hscore : searchScore r.data = some 1) :
    ∀ (k j : Nat) (st : SessionState), st.scores = List.replicate j 1 →
      st.currentDifficultyAdjustment = max (-(j : Int)) (-2) →
      (runTurns st (List.replicate k (.llmOk u r))).currentDifficultyAdjustment
        = max (-((j + k : Nat) : Int)) (-2) := by
  intro k
  induction k with
  | zero =>
    intro j st hs ha
    simpa [runTurns] using ha
  | succ k ih =>
    intro j st hs ha
    rw [List.replicate_succ, runTurns_cons]
    have hs2 : (stepOutcome st (.llmOk u r)).scores = List.replicate (j + 1) 1 := by
      rw [stepOutcome, turnSuccess_scores, hscore, hs, List.replicate_succ']
      rfl
    have ha2 : (stepOutcome st (.llmOk u r)).currentDifficultyAdjustment
        = max (-((j + 1 : Nat) : Int)) (-2) := by
      rw [stepOutcome, turnSuccess_adj, hscore, hs]
      rw [show List.replicate j 1 ++ (some 1).toList = List.replicate (j + 1) 1 by
        rw [List.replicate_succ']; rfl]
      rw [avgOpt_replicate (j + 1) 1 (Nat.succ_ne_zero j), ha, adjustStep_some]
      rw [if_neg (by norm_num), if_neg fun hand => absurd hand.1 (by norm_num)]
      by_cases hj : -2 < max (-(j : Int)) (-2)
      · rw [if_pos ⟨by norm_num, hj⟩]
        omega
      · rw [if_neg fun hand => hj hand.2]
        omega
    have := ih (j + 1) _ hs2 ha2
    rw [show j + (k + 1) = (j + 1) + k from by omega]
    exact this

theorem findFirst_updateFirst (dbI : List Interview) (sid : String)
    (f : Interview → Interview) (hf : ∀ r, (f r).sessionId = r.sessionId) :
    findFirst (updateFirst dbI sid f) sid = (findFirst dbI sid).map f := by
  induction dbI with
  | nil => rfl
  | cons r rest ih =>
    by_cases h : r.sessionId = sid
    · rw [updateFirst, if_pos h, findFirst, findFirst,
        List.find?_cons_of_pos _ (by simp [hf, h]),
        List.find?_cons_of_pos _ (by simp [h])]
      rfl
    · rw [updateFirst, if_neg h, findFirst, findFirst,
        List.find?_cons_of_neg _ (by simp [hf, h]),
        List.find?_cons_of_neg _ (by simp [h])]
      exact ih

theorem turnSuccess_averageScore (st : SessionState) (u r : String) :
    (turnSuccess st u r).2.averageScore
      = match avgOpt (st.scores ++ (searchScore r.data).toList) with
        | none => none
        | some a => if a = 0 then none else some (round1 a) := by
  unfold turnSuccess
  cases searchScore r.data <;> simp

theorem turnSuccess_totalScores (st : SessionState) (u r : String) :
    (turnSuccess st u r).2.totalScores
      = (st.scores ++ (searchScore r.data).toList).length := by
  unfold turnSuccess
  cases searchScore r.data <;> simp

/-! ### The claims -/

/-- **C1**, as stated, is false of the code: `analyze_audio` appends the user
utterance to `history` *before* the model call, so a failed model call leaves
the utterance behind.  Concretely: on a fresh session, a failed turn changes
`history` (from the opening message alone to opening message plus user
utterance). -/
theorem c1_counterexample :
    ((analyzeAudio
        (emptyTable.set "s"
          (some (initialSession ⟨"dsa", "medium", 30⟩ none "sys" "hi")))
        "s" (.llmFail "my answer")).1 "s").map SessionState.history
      ≠ ((emptyTable.set "s"
          (some (initialSession ⟨"dsa", "medium", 30⟩ none "sys" "hi"))) "s").map
            SessionState.history := by
  decide

/-- **C1** (amended): after a failed model call during `turn()`, the scores
sequence, turn counter and difficulty adjustment are unchanged and the
model's half is not appended, but `history` has grown by exactly the user
utterance; the call surfaces a server error and the session stays in the
table. -/
theorem c1_failed_turn_state (tbl : SessionTable) (id u : String)
    (st : SessionState) (h : tbl id = some st) :
    (analyzeAudio tbl id (.llmFail u)).2 = .error .serverError ∧
    (analyzeAudio tbl id (.llmFail u)).1 id
      = some { st with history := st.history ++ [⟨Role.user, u⟩] } := by
  unfold analyzeAudio
  rw [h]
  exact ⟨rfl, by simp [SessionTable.set]⟩

theorem c1_failed_turn_state_witness :
    (analyzeAudio
        (emptyTable.set "s"
          (some (initialSession ⟨"dsa", "medium", 30⟩ none "sys" "hi")))
        "s" (.llmFail "ans")).2 = .error .serverError ∧
    (analyzeAudio
        (emptyTable.set "s"
          (some (initialSession ⟨"dsa", "medium", 30⟩ none "sys" "hi")))
        "s" (.llmFail "ans")).1 "s"
      = some { initialSession ⟨"dsa", "medium", 30⟩ none "sys" "hi" with
                history := (initialSession ⟨"dsa", "medium", 30⟩ none "sys" "hi").history
                  ++ [⟨Role.user, "ans"⟩] } :=
  c1_failed_turn_state _ "s" "ans" _ rfl

/-- **C2**, as stated, is false of the code: `start_interview` creates the
durable `Interview` row unconditionally, so after a guest start (no
identity) a durable record for the session already exists, ownerless and in
status `"active"` — before any end-of-session. -/
theorem c2_counterexample :
    findFirst
        (startInterview emptyTable [] "s1" ⟨"dsa", "medium", 30⟩ none "sys" "hi").2
        "s1"
      = some
          { sessionId := "s1", userId := none, status := "active",
            questionCount := 1, scores := [], averageScore := none,
            transcript := [⟨Role.assistant, "hi"⟩], summary := none } := by
  decide

/-- **C2** (amended): `start()` always appends exactly one durable record for
the new session, in status `"active"`, whose ownership equals the request's
identity — the present identity for an authenticated start, null for a
guest. -/
theorem c2_start_always_persists (tbl : SessionTable) (dbI : List Interview)
    (sid : String) (req : StartRequest) (uid : Option Nat) (sp op : String) :
    (startInterview tbl dbI sid req uid sp op).2
      = dbI ++
          [{ sessionId := sid, userId := uid, status := "active",
             questionCount := 1, scores := [], averageScore := none,
             transcript := [⟨Role.assistant, op⟩], summary := none }] := rfl

/-- **C3**: `end()` is exactly-once.  On a session present in the table,
`end()` succeeds and removes the in-memory entry; any further `end()` on the
same identifier fails with NotFound (leaving the table as it was), and
`end()` on an identifier with no in-memory entry (in particular one never
created) fails the same way. -/
theorem c3_end_exactly_once (tbl : SessionTable) (dbI : List Interview)
    (id : String) (st : SessionState) (o : Option String) (d : Nat)
    (h : tbl id = some st) :
    (∃ res : EndResult, (endInterview tbl dbI id o d).2.2 = .ok res) ∧
    (endInterview tbl dbI id o d).1 id = none ∧
    (∀ (dbI2 : List Interview) (o2 : Option String) (d2 : Nat),
      endInterview (endInterview tbl dbI id o d).1 dbI2 id o2 d2
        = ((endInterview tbl dbI id o d).1, dbI2, .error .notFound)) ∧
    (∀ (tbl0 : SessionTable) (dbI0 : List Interview) (o0 : Option String)
        (d0 : Nat), tbl0 id = none →
      endInterview tbl0 dbI0 id o0 d0 = (tbl0, dbI0, .error .notFound)) := by
  have hgone : (endInterview tbl dbI id o d).1 id = none := by
    unfold endInterview
    rw [h]
    simp [SessionTable.set]
  have hnf : ∀ (tbl0 : SessionTable) (dbI0 : List Interview)
      (o0 : Option String) (d0 : Nat), tbl0 id = none →
      endInterview tbl0 dbI0 id o0 d0 = (tbl0, dbI0, .error .notFound) := by
    intro tbl0 dbI0 o0 d0 h0
    unfold endInterview
    rw [h0]
  refine ⟨?_, hgone, fun dbI2 o2 d2 => hnf _ dbI2 o2 d2 hgone, hnf⟩
  simp only [endInterview, h]
  exact ⟨_, rfl⟩

theorem c3_end_exactly_once_witness :
    (∃ res : EndResult,
      (endInterview
          (emptyTable.set "s"
            (some (initialSession ⟨"dsa", "medium", 30⟩ none "sys" "hi")))
          [] "s" (some "summary") 60).2.2 = .ok res) ∧
    (endInterview
        (emptyTable.set "s"
          (some (initialSession ⟨"dsa", "medium", 30⟩ none "sys" "hi")))
        [] "s" (some "summary") 60).1 "s" = none ∧
    (∀ (dbI2 : List Interview) (o2 : Option String) (d2 : Nat),
      endInterview
          (endInterview
              (emptyTable.set "s"
                (some (initialSession ⟨"dsa", "medium", 30⟩ none "sys" "hi")))
              [] "s" (some "summary") 60).1 dbI2 "s" o2 d2
        = ((endInterview
              (emptyTable.set "s"
                (some (initialSession ⟨"dsa", "medium", 30⟩ none "sys" "hi")))
              [] "s" (some "summary") 60).1, dbI2, .error .notFound)) ∧
    (∀ (tbl0 : SessionTable) (dbI0 : List Interview) (o0 : Option String)
        (d0 : Nat), tbl0 "s" = none →
      endInterview tbl0 dbI0 "s" o0 d0 = (tbl0, dbI0, .error .notFound)) :=
  c3_end_exactly_once _ [] "s" _ (some "summary") 60 rfl

/-- **C5**: the payload of a successful `end()` carries exactly the score
statistics the spec's `finalize()` describes — mean rounded to 1 decimal,
min and max of the scores, all three absent with trend `"stable"` for an
empty scores sequence — and `end()` succeeds on any session present in the
table, in particular one with zero turns. -/
theorem c5_final_stats (tbl : SessionTable) (dbI : List Interview)
    (id : String) (st : SessionState) (o : Option String) (d : Nat)
    (h : tbl id = some st) :
    (endInterview tbl dbI id o d).2.2
      = .ok
          { sessionId := id, totalQuestions := st.questionCount,
            scores := specFinalize st.scores,
            summary := o.getD fallbackSummary, history := st.history,
            durationSeconds := d } ∧
    specFinalize ([] : List Nat)
      = { individual := [], average := none, min := none, max := none,
          trend := "stable" } := by
  constructor
  · unfold endInterview
    rw [h]
    rfl
  · rfl

theorem c5_final_stats_witness :
    (endInterview
        (emptyTable.set "s"
          (some (initialSession ⟨"dsa", "medium", 30⟩ none "sys" "hi")))
        [] "s" (some "summary") 60).2.2
      = .ok
          { sessionId := "s",
            totalQuestions :=
              (initialSession ⟨"dsa", "medium", 30⟩ none "sys" "hi").questionCount,
            scores :=
              specFinalize (initialSession ⟨"dsa", "medium", 30⟩ none "sys" "hi").scores,
            summary := (some "summary").getD fallbackSummary,
            history := (initialSession ⟨"dsa", "medium", 30⟩ none "sys" "hi").history,
            durationSeconds := 60 } ∧
    specFinalize ([] : List Nat)
      = { individual := [], average := none, min := none, max := none,
          trend := "stable" } :=
  c5_final_stats _ [] "s" _ (some "summary") 60 rfl

/-- **C8**: when the summary model call fails, `end()` still succeeds on any
session present in the table and its payload carries the fixed fallback
summary string. -/
theorem c8_summary_fallback (tbl : SessionTable) (dbI : List Interview)
    (id : String) (st : SessionState) (d : Nat) (h : tbl id = some st) :
    ∃ res : EndResult,
      (endInterview tbl dbI id none d).2.2 = .ok res ∧
        res.summary = fallbackSummary := by
  unfold endInterview
  rw [h]
  exact ⟨_, rfl, rfl⟩

theorem c8_summary_fallback_witness :
    ∃ res : EndResult,
      (endInterview
          (emptyTable.set "s"
            (some (initialSession ⟨"dsa", "medium", 30⟩ none "sys" "hi")))
          [] "s" none 60).2.2 = .ok res ∧
        res.summary = fallbackSummary :=
  c8_summary_fallback _ [] "s" _ 60 rfl

/-- **C4**: the difficulty-adjustment counter starts at 0 and stays in
[−2, +2] after every sequence of turns; it moves up by one only when the
running average is ≥ 8 and the counter is < +2, moves down by one only when
the running average is ≤ 4 and the counter is > −2, and is unchanged
whenever neither guard holds (including when no average exists); ten
consecutive turns scored 10 drive it from a fresh session to exactly +2,
and ten consecutive turns scored 1 to exactly −2. -/
theorem c4_difficulty_adjustment :
    (∀ (req : StartRequest) (uid : Option Nat) (sp op : String),
      (initialSession req uid sp op).currentDifficultyAdjustment = 0) ∧
    (∀ (req : StartRequest) (uid : Option Nat) (sp op : String)
        (outs : List TurnOutcome),
      -2 ≤ (runTurns (initialSession req uid sp op) outs).currentDifficultyAdjustment ∧
      (runTurns (initialSession req uid sp op) outs).currentDifficultyAdjustment ≤ 2) ∧
    (∀ (avg : Option ℚ) (adj : Int), adjustStep avg adj = adj + 1 →
      ∃ a, avg = some a ∧ 8 ≤ a ∧ adj < 2) ∧
    (∀ (avg : Option ℚ) (adj : Int), adjustStep avg adj = adj - 1 →
      ∃ a, avg = some a ∧ a ≤ 4 ∧ -2 < adj) ∧
    (∀ (a : ℚ) (adj : Int), ¬(8 ≤ a ∧ adj < 2) → ¬(a ≤ 4 ∧ -2 < adj) →
      adjustStep (some a) adj = adj) ∧
    (∀ adj : Int, adjustStep none adj = adj) ∧
    (runTurns (initialSession ⟨"dsa", "medium", 30⟩ none "sys" "hi")
        (List.replicate 10
          (.llmOk "answer" "Good. [SCORE: 10/10]"))).currentDifficultyAdjustment
      = 2 ∧
    (runTurns (initialSession ⟨"dsa", "medium", 30⟩ none "sys" "hi")
        (List.replicate 10
          (.llmOk "answer" "Weak. [SCORE: 1/10]"))).currentDifficultyAdjustment
      = -2 := by
  have hinit : ∀ (req : StartRequest) (uid : Option Nat) (sp op : String),
      (initialSession req uid sp op).currentDifficultyAdjustment = 0 :=
    fun _ _ _ _ => rfl
  refine ⟨hinit,
    fun req uid sp op outs =>
      runTurns_adj_bounds outs _ (by rw [hinit]; omega) (by rw [hinit]; omega),
    ?_, ?_, ?_, fun adj => rfl, ?_, ?_⟩
  · intro avg adj hstep
    cases avg with
    | none =>
      rw [adjustStep_none] at hstep
      omega
    | some a =>
      rw [adjustStep_some] at hstep
      by_cases hz : a = 0
      · rw [if_pos hz] at hstep
        omega
      · rw [if_neg hz] at hstep
        by_cases hinc : 8 ≤ a ∧ adj < 2
        · exact ⟨a, rfl, hinc.1, hinc.2⟩
        · rw [if_neg hinc] at hstep
          by_cases hdec : a ≤ 4 ∧ -2 < adj
          · rw [if_pos hdec] at hstep
            omega
          · rw [if_neg hdec] at hstep
            omega
  · intro avg adj hstep
    cases avg with
    | none =>
      rw [adjustStep_none] at hstep
      omega
    | some a =>
      rw [adjustStep_some] at hstep
      by_cases hz : a = 0
      · rw [if_pos hz] at hstep
        omega
      · rw [if_neg hz] at hstep
        by_cases hinc : 8 ≤ a ∧ adj < 2
        · rw [if_pos hinc] at hstep
          omega
        · rw [if_neg hinc] at hstep
          by_cases hdec : a ≤ 4 ∧ -2 < adj
          · exact ⟨a, rfl, hdec.1, hdec.2⟩
          · rw [if_neg hdec] at hstep
            omega
  · intro a adj hni hnd
    rw [adjustStep_some]
    by_cases hz : a = 0
    · rw [if_pos hz]
    · rw [if_neg hz, if_neg hni, if_neg hnd]
  · have := runTurns_const_ten "answer" "Good. [SCORE: 10/10]" (by decide)
      10 0 (initialSession ⟨"dsa", "medium", 30⟩ none "sys" "hi") rfl rfl
    rw [this]
    decide
  · have := runTurns_const_one "answer" "Weak. [SCORE: 1/10]" (by decide)
      10 0 (initialSession ⟨"dsa", "medium", 30⟩ none "sys" "hi") rfl rfl
    rw [this]
    decide

/-- **C6**: the trend classification of `end()` is `"improving"` exactly when
there are at least two scores and the last exceeds the first, `"declining"`
exactly when there are at least two and the last is below the first, and
`"stable"` in every other case; in particular [3,7] → improving,
[7,3] → declining, [5,5] → stable, [5] → stable. -/
theorem c6_trend_classification :
    (∀ s : List Nat,
      (trendOf s = "improving" ↔ 2 ≤ s.length ∧ s.headD 0 < s.getLastD 0) ∧
      (trendOf s = "declining" ↔ 2 ≤ s.length ∧ s.getLastD 0 < s.headD 0) ∧
      (trendOf s = "stable" ↔
        ¬(2 ≤ s.length ∧ s.headD 0 < s.getLastD 0) ∧
        ¬(2 ≤ s.length ∧ s.getLastD 0 < s.headD 0))) ∧
    trendOf [3, 7] = "improving" ∧ trendOf [7, 3] = "declining" ∧
    trendOf [5, 5] = "stable" ∧ trendOf [5] = "stable" := by
  refine ⟨fun s => ?_, by decide, by decide, by decide, by decide⟩
  have hid : ("improving" : String) ≠ "declining" := by decide
  have his : ("improving" : String) ≠ "stable" := by decide
  have hds : ("declining" : String) ≠ "stable" := by decide
  unfold trendOf
  split_ifs with h1 h2
  · exact ⟨⟨fun _ => h1, fun _ => rfl⟩,
      ⟨fun he => absurd he hid, fun hc => by omega⟩,
      ⟨fun he => absurd he his, fun hc => absurd h1 hc.1⟩⟩
  · exact ⟨⟨fun he => absurd he.symm hid, fun hc => absurd hc h1⟩,
      ⟨fun _ => h2, fun _ => rfl⟩,
      ⟨fun he => absurd he hds, fun hc => absurd h2 hc.2⟩⟩
  · exact ⟨⟨fun he => absurd he.symm his, fun hc => absurd hc h1⟩,
      ⟨fun he => absurd he.symm hds, fun hc => absurd hc h2⟩,
      ⟨fun _ => ⟨h1, h2⟩, fun _ => rfl⟩⟩

/-- **C9**: starting from a fresh session, after any sequence of successful
turns twice the number of recorded scores never exceeds the history length
(`len(scores) ≤ len(history)/2`), and the scores sequence is exactly the
per-turn parsed scores concatenated in the order the turns completed. -/
theorem c9_scores_history_invariant :
    ∀ (req : StartRequest) (uid : Option Nat) (sp op : String)
      (turns : List (String × String)),
      2 * (runSuccessfulTurns (initialSession req uid sp op) turns).scores.length
          ≤ (runSuccessfulTurns (initialSession req uid sp op) turns).history.length ∧
      (runSuccessfulTurns (initialSession req uid sp op) turns).scores
          = turns.filterMap fun p => searchScore p.2.data := by
  intro req uid sp op turns
  have hs := runSuccessfulTurns_scores turns (initialSession req uid sp op)
  have hh := runSuccessfulTurns_history_length turns (initialSession req uid sp op)
  have hscores : (runSuccessfulTurns (initialSession req uid sp op) turns).scores
      = turns.filterMap fun p => searchScore p.2.data := by
    rw [hs]
    rfl
  refine ⟨?_, hscores⟩
  rw [hscores, hh]
  have hlen : (turns.filterMap fun p => searchScore p.2.data).length ≤ turns.length :=
    List.length_filterMap_le _ _
  simp only [initialSession, List.length_cons, List.length_nil]
  omega

/-- **C7**: saving a finalized interview to a user account: when the durable
record's ownership already equals the requesting identity the call is a
no-op success ("already saved") and stays so on repeated calls; when the
ownership is null it is set to the requesting identity and the call
succeeds (and a repeat call then reports "already saved"); when the
ownership is a different identity the call fails with PermissionDenied and
the records are not mutated. -/
theorem c7_claim_rules (dbI : List Interview) (tbl : SessionTable)
    (sid : String) (uid : Nat) (ex : Interview)
    (h : findFirst dbI sid = some ex) :
    (ex.userId = some uid →
      saveInterviewToUserHistory dbI tbl sid uid
        = (dbI, .ok ⟨true, "Interview already saved"⟩)) ∧
    (ex.userId = none →
      (saveInterviewToUserHistory dbI tbl sid uid).2
          = .ok ⟨true, "Interview linked to your account"⟩ ∧
      (findFirst (saveInterviewToUserHistory dbI tbl sid uid).1 sid).map
          Interview.userId = some (some uid) ∧
      saveInterviewToUserHistory
          (saveInterviewToUserHistory dbI tbl sid uid).1 tbl sid uid
        = ((saveInterviewToUserHistory dbI tbl sid uid).1,
            .ok ⟨true, "Interview already saved"⟩)) ∧
    (∀ v : Nat, ex.userId = some v → v ≠ uid →
      saveInterviewToUserHistory dbI tbl sid uid
        = (dbI, .error .permissionDenied)) := by
  refine ⟨fun hown => ?_, fun hnone => ?_, fun v hv hne => ?_⟩
  · simp only [saveInterviewToUserHistory, h]
    rw [if_pos hown]
  · have hres : saveInterviewToUserHistory dbI tbl sid uid
        = (updateFirst dbI sid fun r => { r with userId := some uid },
           .ok ⟨true, "Interview linked to your account"⟩) := by
      simp only [saveInterviewToUserHistory, h]
      rw [if_neg (by simp [hnone]), if_pos hnone]
    have hfind : findFirst
        (updateFirst dbI sid fun r => { r with userId := some uid }) sid
        = some { ex with userId := some uid } := by
      rw [findFirst_updateFirst dbI sid
        (fun r => { r with userId := some uid }) fun r => rfl, h]
      rfl
    refine ⟨by rw [hres], by rw [hres]; rw [hfind]; rfl, ?_⟩
    rw [hres]
    simp only [saveInterviewToUserHistory, hfind]
    simp
  · simp only [saveInterviewToUserHistory, h]
    rw [if_neg (by simp [hv, hne]), if_neg (by simp [hv])]

theorem c7_claim_rules_witness :
    (Interview.userId
          ⟨"s", none, "completed", 1, [8], none, [], none⟩ = some 7 →
      saveInterviewToUserHistory
          [⟨"s", none, "completed", 1, [8], none, [], none⟩] emptyTable "s" 7
        = ([⟨"s", none, "completed", 1, [8], none, [], none⟩],
            .ok ⟨true, "Interview already saved"⟩)) ∧
    (Interview.userId
          ⟨"s", none, "completed", 1, [8], none, [], none⟩ = none →
      (saveInterviewToUserHistory
          [⟨"s", none, "completed", 1, [8], none, [], none⟩] emptyTable "s" 7).2
          = .ok ⟨true, "Interview linked to your account"⟩ ∧
      (findFirst
          (saveInterviewToUserHistory
            [⟨"s", none, "completed", 1, [8], none, [], none⟩] emptyTable
            "s" 7).1 "s").map Interview.userId = some (some 7) ∧
      saveInterviewToUserHistory
          (saveInterviewToUserHistory
            [⟨"s", none, "completed", 1, [8], none, [], none⟩] emptyTable
            "s" 7).1 emptyTable "s" 7
        = ((saveInterviewToUserHistory
            [⟨"s", none, "completed", 1, [8], none, [], none⟩] emptyTable
            "s" 7).1,
            .ok ⟨true, "Interview already saved"⟩)) ∧
    (∀ v : Nat,
      Interview.userId
          ⟨"s", none, "completed", 1, [8], none, [], none⟩ = some v → v ≠ 7 →
      saveInterviewToUserHistory
          [⟨"s", none, "completed", 1, [8], none, [], none⟩] emptyTable "s" 7
        = ([⟨"s", none, "completed", 1, [8], none, [], none⟩],
            .error .permissionDenied)) :=
  c7_claim_rules [⟨"s", none, "completed", 1, [8], none, [], none⟩]
    emptyTable "s" 7 ⟨"s", none, "completed", 1, [8], none, [], none⟩ rfl

/-- **C10** (implicit): the score-marker parser accepts any non-negative
integer `n` in `"[SCORE: n/10]"` — including 0, with no 1–10 range check —
and the turn records it; consequently, after a turn on a session whose
recorded scores are all 0 and whose reply carries `[SCORE: 0/10]`, the
response reports `average_score` as absent although the scores sequence is
non-empty, and the difficulty-adjustment policy is skipped. -/
theorem c10_score_parser_no_validation :
    (∀ n : Nat, searchScore (scoreMarker n).data = some n) ∧
    (∀ (st : SessionState) (u : String) (n : Nat),
      (turnSuccess st u (scoreMarker n)).1.scores = st.scores ++ [n]) ∧
    (∀ (st : SessionState) (u : String),
      (∀ x ∈ st.scores, x = 0) →
      (turnSuccess st u (scoreMarker 0)).2.averageScore = none ∧
      (turnSuccess st u (scoreMarker 0)).2.totalScores = st.scores.length + 1 ∧
      (turnSuccess st u (scoreMarker 0)).1.currentDifficultyAdjustment
        = st.currentDifficultyAdjustment) := by
  refine ⟨searchScore_marker, fun st u n => ?_, fun st u hz => ?_⟩
  · rw [turnSuccess_scores, searchScore_marker]
    rfl
  · have havg : avgOpt (st.scores ++ [(0 : Nat)]) = some 0 := by
      unfold avgOpt
      rw [if_neg (by simp)]
      have hsum : (st.scores ++ [(0 : Nat)]).sum = 0 := by
        apply List.sum_eq_zero
        intro x hx
        rcases List.mem_append.mp hx with hm | hm
        · exact hz x hm
        · simpa using hm
      rw [hsum]
      norm_num
    have hmarker := searchScore_marker 0
    refine ⟨?_, ?_, ?_⟩
    · rw [turnSuccess_averageScore, hmarker]
      show (match avgOpt (st.scores ++ [0]) with
        | none => none
        | some a => if a = 0 then none else some (round1 a)) = none
      rw [havg]
      simp
    · rw [turnSuccess_totalScores, hmarker]
      simp
    · rw [turnSuccess_adj, hmarker]
      show adjustStep (avgOpt (st.scores ++ [0])) _ = _
      rw [havg, adjustStep_some, if_pos rfl]

end ProCoach
